/-
Verification of the go-conductor routing / fan-out / selection core.

This file gives a shallow embedding of the relevant Go code:
  - internal/config/config.go        (Load's post-parse defaulting logic)
  - internal/proxy/conductor.go      (route-table construction, matching,
                                      target-URL construction, header overlay,
                                      result selection, ServeHTTP control flow)

Go strings are modelled as lists of characters (GoStr); Go maps built by
append are modelled as association lists in first-insertion key order,
and where Go's nondeterministic map-iteration order matters the theorems
quantify over an arbitrary permutation of that association list.
-/
import Mathlib

namespace Conductor

/-- Go strings, modelled as character lists. -/
abbrev GoStr : Type := List Char

/-- Literal helper: a Lean string literal as a GoStr. -/
def goStr (s : String) : GoStr := s.toList

/-- strings.HasPrefix s pre : does s start with pre. -/
def hasPref : GoStr → GoStr → Bool
  | _, [] => true
  | [], _ :: _ => false
  | a :: s, b :: p => a == b && hasPref s p

/-- strings.HasSuffix s suf : does s end with suf. -/
def hasSuffix (s suf : GoStr) : Bool := hasPref s.reverse suf.reverse

/-- strings.TrimPrefix s pre. -/
def trimPref (s pre : GoStr) : GoStr :=
  if hasPref s pre then s.drop pre.length else s

/-- config.Service (internal/config/config.go). `pathPref` embeds the
source field `pathPrefix`. -/
structure ConfigService where
  name : GoStr
  url : GoStr
  path : GoStr
  pathPref : GoStr
  pathExact : GoStr
  primary : Bool
  headers : List (GoStr × GoStr)
  weight : Int
deriving DecidableEq

/-- config.MetricsConfig. -/
structure MetricsConfig where
  enabled : Bool
  endpoint : GoStr
  enablePrometheus : Bool
deriving DecidableEq

/-- config.Config (the logging field is an external collaborator and is
not modelled). -/
structure Config where
  port : Int
  services : List ConfigService
  timeout : Int
  metrics : MetricsConfig
deriving DecidableEq

/-- `config.Services[0].Primary = true` on a non-empty list. -/
def markFirstPrimary : List ConfigService → List ConfigService
  | [] => []
  | s :: rest => { s with primary := true } :: rest

/-- The pure post-parse part of config.Load (config.go lines 51-80):
defaulting of port, timeout and metrics endpoint, and marking the first
service primary when none is. -/
def applyLoadDefaults (c : Config) : Config :=
  let c1 := if c.port = 0 then { c with port := 8080 } else c
  let c2 := if c1.timeout = 0 then { c1 with timeout := 30 } else c1
  let c3 :=
    if c2.metrics.enabled = true ∧ c2.metrics.endpoint = [] then
      { c2 with metrics := { c2.metrics with endpoint := goStr (r"/metrics") } }
    else c2
  if (¬ c3.services.any (fun s => s.primary)) ∧ c3.services ≠ [] then
    { c3 with services := markFirstPrimary c3.services }
  else c3

/-- The result of url.Parse on a service base URL: its scheme, host, and
the full rendering URL.String(). -/
structure URLParts where
  scheme : GoStr
  host : GoStr
  repr : GoStr
deriving DecidableEq

/-- proxy.Service (conductor.go lines 29-35). -/
structure Service where
  name : GoStr
  url : URLParts
  path : GoStr
  primary : Bool
  config : ConfigService
deriving DecidableEq

/-- Building one proxy.Service from its config entry, given a URL parser
(url.Parse, external; a parse failure is fatal at startup so the claims
quantify over an arbitrary total parser). -/
def mkService (parse : GoStr → URLParts) (sc : ConfigService) : Service :=
  { name := sc.name, url := parse sc.url, path := sc.path,
    primary := sc.primary, config := sc }

/-- Association-list lookup, modelling Go map indexing. -/
def alookup {α : Type} : List (GoStr × α) → GoStr → Option α
  | [], _ => none
  | (k0, v) :: rest, k => if k0 = k then some v else alookup rest k

/-- The group stored under a key (Go: m[k], zero value nil slice). -/
def groupAt (m : List (GoStr × List Service)) (k : GoStr) : List Service :=
  (alookup m k).getD []

/-- The keys of an association list are pairwise distinct (true of any
list modelling a Go map). -/
abbrev keysDistinct {α : Type} (m : List (GoStr × α)) : Prop :=
  (m.map Prod.fst).Nodup

/-- m[k] = append(m[k], s) on a Go map modelled as an association list:
append to the first entry with that key, else add a new entry at the end. -/
def insertRoute : List (GoStr × List Service) → GoStr → Service →
    List (GoStr × List Service)
  | [], k, s => [(k, [s])]
  | (k0, g) :: rest, k, s =>
      if k0 = k then (k0, g ++ [s]) :: rest
      else (k0, g) :: insertRoute rest k s

/-- The three route indices of the Conductor (conductor.go lines 23-25).
`routesByPref` embeds the source field `routesByPrefix`. -/
structure RouteTables where
  routesByExact : List (GoStr × List Service)
  routesByPref : List (GoStr × List Service)
  routesByPath : List (GoStr × List Service)
deriving DecidableEq

/-- The registration step of initializeServices (conductor.go lines 85-95):
exact takes precedence over prefix takes precedence over fallback path;
a service with all three fields empty is registered nowhere. -/
def registerService (t : RouteTables) (s : Service) : RouteTables :=
  if s.config.pathExact ≠ [] then
    { t with routesByExact := insertRoute t.routesByExact s.config.pathExact s }
  else if s.config.pathPref ≠ [] then
    { t with routesByPref := insertRoute t.routesByPref s.config.pathPref s }
  else if s.config.path ≠ [] then
    { t with routesByPath := insertRoute t.routesByPath s.config.path s }
  else t

/-- initializeServices (conductor.go lines 68-97): fold the registration
step over the configured services in declaration order. -/
def initServices (parse : GoStr → URLParts) (cfgs : List ConfigService) :
    RouteTables :=
  cfgs.foldl (fun t sc => registerService t (mkService parse sc))
    { routesByExact := [], routesByPref := [], routesByPath := [] }

/-- The prefix-scan loop of findMatchingServices (conductor.go lines
404-411): fold over the prefix index keeping the longest matching prefix
and its group; the accumulator starts at (empty string, nil). -/
def prefScan (idx : List (GoStr × List Service)) (path : GoStr) :
    GoStr × List Service :=
  idx.foldl
    (fun acc kv =>
      if hasPref path kv.1 = true ∧ acc.1.length < kv.1.length then kv else acc)
    ([], [])

/-- The fallback loop of findMatchingServices (conductor.go lines
417-422): accumulate the groups of all fallback patterns that are a
prefix of the path. -/
def fallbackScan (idx : List (GoStr × List Service)) (path : GoStr) :
    List Service :=
  idx.foldl (fun m kv => if hasPref path kv.1 = true then m ++ kv.2 else m) []

/-- findMatchingServices (conductor.go lines 395-425). -/
def findMatchingServices (t : RouteTables) (path : GoStr) : List Service :=
  match alookup t.routesByExact path with
  | some services => services
  | none =>
      let matched := (prefScan t.routesByPref path).2
      if matched.length > 0 then matched
      else fallbackScan t.routesByPath path

/-- The path computation of createTargetURL (conductor.go lines 365-372):
when the service has a non-empty path prefix and the inbound path starts
with it, strip the prefix and re-add a leading slash if stripping removed
it; otherwise keep the inbound path. -/
def stripPath (svc : Service) (path : GoStr) : GoStr :=
  if svc.config.pathPref ≠ [] ∧ hasPref path svc.config.pathPref = true then
    let p := trimPref path svc.config.pathPref
    if ¬ hasPref p (goStr (r"/")) = true then goStr (r"/") ++ p else p
  else path

/-- createTargetURL (conductor.go lines 361-392). -/
def createTargetURL (svc : Service) (path rawQuery : GoStr) : GoStr :=
  let targetURL0 := svc.url.repr
  let path1 := stripPath svc path
  let targetURL1 :=
    if ¬ hasSuffix targetURL0 (goStr (r"/")) = true ∧ path1 ≠ [] ∧
        ¬ hasPref path1 (goStr (r"/")) = true then
      targetURL0 ++ goStr (r"/")
    else targetURL0
  let targetURL2 :=
    if hasPref path1 (goStr (r"/")) = true then
      svc.url.scheme ++ goStr (r"://") ++ svc.url.host ++ path1
    else if path1 ≠ [] then
      svc.url.scheme ++ goStr (r"://") ++ svc.url.host ++ goStr (r"/") ++ path1
    else targetURL1
  if rawQuery ≠ [] then targetURL2 ++ goStr (r"?") ++ rawQuery else targetURL2

/-- http.Header: a map from header names to lists of values (header-name
canonicalization, a net/http detail, is not modelled: names are compared
as given). -/
abbrev Headers : Type := List (GoStr × List GoStr)

/-- http.Header.Add: append one value to the (possibly absent) entry. -/
def headerAdd : Headers → GoStr → GoStr → Headers
  | [], k, v => [(k, [v])]
  | (k0, vs) :: rest, k, v =>
      if k0 = k then (k0, vs ++ [v]) :: rest
      else (k0, vs) :: headerAdd rest k v

/-- http.Header.Set: replace the entry by the single given value. -/
def headerSet : Headers → GoStr → GoStr → Headers
  | [], k, v => [(k, [v])]
  | (k0, vs) :: rest, k, v =>
      if k0 = k then (k0, [v]) :: rest
      else (k0, vs) :: headerSet rest k v

/-- copyAndAugmentHeaders (conductor.go lines 309-321): Add every value of
every inbound header onto a fresh header set, then Set each of the
service's configured extra headers. -/
def copyAndAugmentHeaders (orig : Headers) (svcHeaders : List (GoStr × GoStr)) :
    Headers :=
  let copied :=
    orig.foldl (fun acc kv => kv.2.foldl (fun a v => headerAdd a kv.1 v) acc) []
  svcHeaders.foldl (fun acc kv => headerSet acc kv.1 kv.2) copied

/-- serviceResult (conductor.go lines 38-43): `err` models `err != nil`;
status/headers/body model the buffered `resp` and `body` fields and are
meaningful only when `err` is false. -/
structure serviceResult where
  service : Service
  status : Nat
  headers : Headers
  body : GoStr
  err : Bool
deriving DecidableEq

/-- The loop body of processResults (conductor.go lines 178-198), with the
running anyResult as accumulator: errors are skipped, the first success is
kept as anyResult, and the loop breaks returning a primary success. -/
def processResultsAux : Option serviceResult → List serviceResult →
    Option serviceResult
  | anyR, [] => anyR
  | anyR, r :: rest =>
      if r.err = true then processResultsAux anyR rest
      else
        let anyR1 := match anyR with | none => some r | some a => some a
        if r.service.primary = true then some r
        else processResultsAux anyR1 rest

/-- processResults (conductor.go lines 174-223): the outcome stream is
modelled as the list of per-service results in arrival order. -/
def processResults (results : List serviceResult) : Option serviceResult :=
  processResultsAux none results

/-- A written HTTP response: status code, headers, plain body.
http.Error(w, msg, code) is modelled as status = code, body = msg. -/
structure HttpResponse where
  status : Nat
  headers : Headers
  body : GoStr
deriving DecidableEq

/-- http.Error. -/
def httpError (msg : GoStr) (code : Nat) : HttpResponse :=
  { status := code, headers := [], body := msg }

/-- writeResponse (conductor.go lines 226-250): relay the chosen outcome's
headers, status and body. -/
def writeResponse (result : serviceResult) : HttpResponse :=
  { status := result.status, headers := result.headers, body := result.body }

/-- ServeHTTP (conductor.go lines 100-148). The network is external, so
the body-read success flag and the arrival-ordered outcome stream are
inputs; the second component is the number of dispatched outbound
requests (fanOutRequests starts one per matched service, and is only
reached after matching and body reading succeed). -/
def serveHTTP (t : RouteTables) (path : GoStr) (bodyReadOk : Bool)
    (outcomes : List serviceResult) : HttpResponse × Nat :=
  let services := findMatchingServices t path
  if services.length = 0 then
    (httpError (goStr (r"No service found for request")) 404, 0)
  else if bodyReadOk = false then
    (httpError (goStr (r"Failed to read request body")) 500, 0)
  else
    match processResults outcomes with
    | none => (httpError (goStr (r"All services failed")) 502, services.length)
    | some result => (writeResponse result, services.length)

/-- An outcome that is error-free and comes from a primary service. -/
def isPrimarySuccess (r : serviceResult) : Bool := !r.err && r.service.primary

/-- An error-free outcome. -/
def isSuccess (r : serviceResult) : Bool := !r.err

lemma processResultsAux_some (rs : List serviceResult) (a : serviceResult) :
    processResultsAux (some a) rs =
      match rs.find? isPrimarySuccess with
      | some p => some p
      | none => some a := by
  induction rs with
  | nil => simp [processResultsAux, List.find?]
  | cons r rest ih =>
    by_cases h : r.err = true <;> by_cases hp : r.service.primary = true <;>
      simp [processResultsAux, isPrimarySuccess, h, hp, List.find?, ih]

/-- processResults equals: the first primary success if one exists,
otherwise the first success, otherwise none. -/
lemma processResults_eq (rs : List serviceResult) :
    processResults rs =
      match rs.find? isPrimarySuccess with
      | some p => some p
      | none => rs.find? isSuccess := by
  unfold processResults
  induction rs with
  | nil => simp [processResultsAux, List.find?]
  | cons r rest ih =>
    by_cases h : r.err = true <;> by_cases hp : r.service.primary = true <;>
      simp [processResultsAux, isPrimarySuccess, isSuccess, h, hp, List.find?,
        ih, processResultsAux_some]

lemma find?_append_first {α : Type} (p : α → Bool) (xs ys : List α) (x : α)
    (hxs : ∀ z ∈ xs, p z = false) (hx : p x = true) :
    List.find? p (xs ++ x :: ys) = some x := by
  induction xs with
  | nil => simp [List.find?, hx]
  | cons z zs ih =>
    have hz : p z = false := hxs z (by simp)
    simp only [List.cons_append, List.find?, hz]
    exact ih (fun w hw => hxs w (by simp [hw]))

/-- C1: scanning the outcome stream in arrival order, (a) an outcome
carrying an error is never the chosen result; (b) if every outcome
carries an error the selector reports no result; (c) the first error-free
outcome from a primary service is chosen and no later outcome is consumed
(the result on the stream truncated right after it is the same); (d) if
no primary success appears, the first error-free outcome is chosen. -/
theorem processResults_selection (rs : List serviceResult) :
    (∀ r, processResults rs = some r → r.err = false)
  ∧ ((∀ r ∈ rs, r.err = true) → processResults rs = none)
  ∧ (∀ xs p ys, rs = xs ++ p :: ys →
      (∀ x ∈ xs, isPrimarySuccess x = false) →
      isPrimarySuccess p = true →
      processResults rs = some p ∧ processResults (xs ++ [p]) = some p)
  ∧ (∀ xs p ys, rs = xs ++ p :: ys →
      (∀ x ∈ xs, x.err = true) → p.err = false →
      (∀ r ∈ rs, isPrimarySuccess r = false) →
      processResults rs = some p) := by
  refine ⟨?_, ?_, ?_, ?_⟩
  · intro r h
    rw [processResults_eq] at h
    cases hf : rs.find? isPrimarySuccess with
    | some q =>
      rw [hf] at h
      have := List.find?_some hf
      simp only [isPrimarySuccess, Bool.and_eq_true, Bool.not_eq_true'] at this
      cases h
      exact this.1
    | none =>
      rw [hf] at h
      have := List.find?_some h
      simpa [isSuccess] using this
  · intro h
    rw [processResults_eq]
    have h1 : rs.find? isPrimarySuccess = none := by
      rw [List.find?_eq_none]
      intro x hx
      simp [isPrimarySuccess, h x hx]
    have h2 : rs.find? isSuccess = none := by
      rw [List.find?_eq_none]
      intro x hx
      simp [isSuccess, h x hx]
    rw [h1, h2]
  · intro xs p ys hrs hxs hp
    subst hrs
    constructor
    · rw [processResults_eq, find?_append_first isPrimarySuccess xs ys p hxs hp]
    · rw [processResults_eq, find?_append_first isPrimarySuccess xs [] p hxs hp]
  · intro xs p ys hrs hxs hp hnp
    subst hrs
    rw [processResults_eq]
    have h1 : (xs ++ p :: ys).find? isPrimarySuccess = none := by
      rw [List.find?_eq_none]
      intro x hx
      simp [hnp x hx]
    rw [h1, find?_append_first isSuccess xs ys p
      (fun z hz => by simp [isSuccess, hxs z hz]) (by simp [isSuccess, hp])]

/-- A minimal service descriptor used by concrete witnesses. -/
def svcW1 : Service :=
  { name := [], url := { scheme := [], host := [], repr := [] }, path := [],
    primary := false,
    config := { name := [], url := [], path := [], pathPref := [],
                pathExact := [], primary := false, headers := [], weight := 0 } }

/-- A primary variant of the witness service. -/
def svcW2 : Service := { svcW1 with primary := true }

/-- A failed outcome for the witness. -/
def resFail : serviceResult :=
  { service := svcW1, status := 0, headers := [], body := [], err := true }

/-- A primary success outcome for the witness. -/
def resPrim : serviceResult :=
  { service := svcW2, status := 200, headers := [], body := [], err := false }

/-- Witness for C1 at a concrete stream: a failure followed by a primary
success selects the primary success. -/
theorem processResults_selection_witness :
    processResults [resFail, resPrim] = some resPrim :=
  ((processResults_selection [resFail, resPrim]).2.2.1 [resFail] resPrim []
    rfl (by decide) (by decide)).1

lemma alookup_mem {α : Type} {m : List (GoStr × α)} {k : GoStr} {v : α}
    (h : alookup m k = some v) : (k, v) ∈ m := by
  induction m with
  | nil => exact Option.noConfusion h
  | cons kv rest ih =>
    obtain ⟨k0, v0⟩ := kv
    simp only [alookup] at h
    by_cases hk : k0 = k
    · rw [if_pos hk] at h
      injection h with h1
      subst hk
      subst h1
      exact List.mem_cons_self _ _
    · rw [if_neg hk] at h
      exact List.mem_cons_of_mem _ (ih h)

lemma mem_alookup {α : Type} {m : List (GoStr × α)} {k : GoStr} {v : α}
    (hd : keysDistinct m) (h : (k, v) ∈ m) : alookup m k = some v := by
  induction m with
  | nil => exact absurd h (List.not_mem_nil _)
  | cons kv rest ih =>
    obtain ⟨k0, v0⟩ := kv
    have hd2 : (k0 :: rest.map Prod.fst).Nodup := hd
    have hnd := List.nodup_cons.1 hd2
    rcases List.mem_cons.1 h with h1 | h1
    · have e1 : k = k0 := congrArg Prod.fst h1
      have e2 : v = v0 := congrArg Prod.snd h1
      subst e1
      subst e2
      simp [alookup]
    · have hk : k0 ≠ k := by
        intro he
        subst he
        exact hnd.1 (List.mem_map_of_mem Prod.fst h1)
      simp only [alookup, if_neg hk]
      exact ih hnd.2 h1

lemma alookup_perm {α : Type} {m1 m2 : List (GoStr × α)} (hp : m1.Perm m2)
    (hd : keysDistinct m1) (k : GoStr) : alookup m1 k = alookup m2 k := by
  have hd2 : keysDistinct m2 := (hp.map Prod.fst).nodup_iff.1 hd
  cases h1 : alookup m1 k with
  | some v => exact (mem_alookup hd2 (hp.subset (alookup_mem h1))).symm
  | none =>
    cases h2 : alookup m2 k with
    | some v =>
      have h3 := mem_alookup hd (hp.symm.subset (alookup_mem h2))
      rw [h1] at h3
      exact h3
    | none => rfl

lemma keys_insertRoute (m : List (GoStr × List Service)) (k : GoStr)
    (s : Service) :
    (insertRoute m k s).map Prod.fst =
      if k ∈ m.map Prod.fst then m.map Prod.fst else m.map Prod.fst ++ [k] := by
  induction m with
  | nil => simp [insertRoute]
  | cons kv rest ih =>
    obtain ⟨k0, g⟩ := kv
    by_cases hk : k0 = k
    · subst hk
      simp [insertRoute]
    · have hk2 : ¬ k = k0 := fun h => hk h.symm
      simp only [insertRoute, if_neg hk, List.map_cons, List.mem_cons, ih]
      by_cases hmem : k ∈ rest.map Prod.fst <;> simp [hmem, hk2]

lemma keysDistinct_insertRoute {m : List (GoStr × List Service)} {k : GoStr}
    {s : Service} (hd : keysDistinct m) : keysDistinct (insertRoute m k s) := by
  unfold keysDistinct at hd ⊢
  rw [keys_insertRoute]
  by_cases hmem : k ∈ m.map Prod.fst
  · simpa [hmem] using hd
  · have hdisj : (m.map Prod.fst).Disjoint [k] := by
      intro a ha hb
      rw [List.mem_singleton] at hb
      subst hb
      exact hmem ha
    simpa [hmem] using hd.append (List.nodup_singleton k) hdisj

lemma alookup_insertRoute (m : List (GoStr × List Service)) (k k' : GoStr)
    (s : Service) :
    alookup (insertRoute m k s) k' =
      if k' = k then some (groupAt m k ++ [s]) else alookup m k' := by
  induction m with
  | nil =>
    by_cases hk : k' = k
    · subst hk
      simp [insertRoute, alookup, groupAt]
    · have h2 : ¬ k = k' := fun h => hk h.symm
      simp [insertRoute, alookup, hk, h2]
  | cons kv rest ih =>
    obtain ⟨k0, g⟩ := kv
    by_cases hk0 : k0 = k
    · subst hk0
      by_cases hk : k' = k0
      · subst hk
        simp [insertRoute, alookup, groupAt]
      · have h2 : ¬ k0 = k' := fun h => hk h.symm
        simp [insertRoute, alookup, hk, h2]
    · by_cases hk : k' = k0
      · have h5 : k0 = k' := hk.symm
        have h6 : ¬ k' = k := fun h => hk0 (hk.symm.trans h)
        simp [insertRoute, hk0, alookup, h5, h6]
      · have h4 : ¬ k0 = k' := fun h => hk h.symm
        by_cases hkk : k' = k
        · subst hkk
          simp [insertRoute, hk0, alookup, h4, ih, groupAt]
        · simp [insertRoute, hk0, alookup, h4, hkk, ih]

lemma groupAt_insertRoute (m : List (GoStr × List Service)) (k k' : GoStr)
    (s : Service) :
    groupAt (insertRoute m k s) k' =
      if k' = k then groupAt m k ++ [s] else groupAt m k' := by
  unfold groupAt
  rw [alookup_insertRoute]
  by_cases hk : k' = k <;> simp [hk, groupAt]

lemma insertRoute_cons_pos {k0 k : GoStr} {g : List Service}
    {rest : List (GoStr × List Service)} {s : Service} (h : k0 = k) :
    insertRoute ((k0, g) :: rest) k s = (k0, g ++ [s]) :: rest := by
  simp only [insertRoute]
  rw [if_pos h]

lemma insertRoute_cons_neg {k0 k : GoStr} {g : List Service}
    {rest : List (GoStr × List Service)} {s : Service} (h : ¬ k0 = k) :
    insertRoute ((k0, g) :: rest) k s = (k0, g) :: insertRoute rest k s := by
  simp only [insertRoute]
  rw [if_neg h]

lemma insertRoute_forall {R : GoStr → Service → Prop}
    {m : List (GoStr × List Service)} {k : GoStr} {s : Service}
    (hm : ∀ kg ∈ m, ∀ x ∈ kg.2, R kg.1 x) (hs : R k s) :
    ∀ kg ∈ insertRoute m k s, ∀ x ∈ kg.2, R kg.1 x := by
  induction m with
  | nil =>
    intro kg hkg
    have h1 := List.mem_singleton.1 hkg
    subst h1
    intro x hx
    have hx2 := List.mem_singleton.1 hx
    subst hx2
    exact hs
  | cons kv rest ih =>
    obtain ⟨k0, g⟩ := kv
    intro kg hkg
    by_cases hk : k0 = k
    · rw [insertRoute_cons_pos hk] at hkg
      rcases List.mem_cons.1 hkg with rfl | hkg
      · intro x hx
        rcases List.mem_append.1 hx with hx1 | hx1
        · exact hm (k0, g) (List.mem_cons_self _ _) x hx1
        · have hx2 := List.mem_singleton.1 hx1
          subst hx2
          rw [hk]
          exact hs
      · exact hm kg (List.mem_cons_of_mem _ hkg)
    · rw [insertRoute_cons_neg hk] at hkg
      rcases List.mem_cons.1 hkg with rfl | hkg
      · exact hm (k0, g) (List.mem_cons_self _ _)
      · exact ih (fun kg2 h2 => hm kg2 (List.mem_cons_of_mem _ h2)) kg hkg

lemma insertRoute_ne {m : List (GoStr × List Service)} {k : GoStr}
    {s : Service} (hm : ∀ kg ∈ m, kg.2 ≠ []) :
    ∀ kg ∈ insertRoute m k s, kg.2 ≠ [] := by
  induction m with
  | nil =>
    intro kg hkg
    have h1 := List.mem_singleton.1 hkg
    subst h1
    simp
  | cons kv rest ih =>
    obtain ⟨k0, g⟩ := kv
    intro kg hkg
    by_cases hk : k0 = k
    · rw [insertRoute_cons_pos hk] at hkg
      rcases List.mem_cons.1 hkg with rfl | hkg
      · simp
      · exact hm kg (List.mem_cons_of_mem _ hkg)
    · rw [insertRoute_cons_neg hk] at hkg
      rcases List.mem_cons.1 hkg with rfl | hkg
      · exact hm (k0, g) (List.mem_cons_self _ _)
      · exact ih (fun kg2 h2 => hm kg2 (List.mem_cons_of_mem _ h2)) kg hkg

/-- Structural invariant of the route tables maintained by
initializeServices: distinct keys per index, non-empty groups, and every
registered service carries the pattern it is registered under in the
field matching its index (with the earlier fields empty, reflecting the
exact > prefix > fallback registration precedence). -/
def TablesInv (t : RouteTables) : Prop :=
  keysDistinct t.routesByExact ∧ keysDistinct t.routesByPref ∧
  keysDistinct t.routesByPath ∧
  (∀ kg ∈ t.routesByExact, kg.2 ≠ [] ∧ ∀ x ∈ kg.2,
    x.config.pathExact = kg.1 ∧ kg.1 ≠ []) ∧
  (∀ kg ∈ t.routesByPref, kg.2 ≠ [] ∧ ∀ x ∈ kg.2,
    x.config.pathExact = [] ∧ x.config.pathPref = kg.1 ∧ kg.1 ≠ []) ∧
  (∀ kg ∈ t.routesByPath, kg.2 ≠ [] ∧ ∀ x ∈ kg.2,
    x.config.pathExact = [] ∧ x.config.pathPref = [] ∧
      x.config.path = kg.1 ∧ kg.1 ≠ [])

lemma registerService_exact {t : RouteTables} {s : Service}
    (he : s.config.pathExact ≠ []) :
    registerService t s =
      { t with routesByExact := insertRoute t.routesByExact s.config.pathExact s } := by
  unfold registerService
  rw [if_pos he]

lemma registerService_pref {t : RouteTables} {s : Service}
    (he : s.config.pathExact = []) (hp : s.config.pathPref ≠ []) :
    registerService t s =
      { t with routesByPref := insertRoute t.routesByPref s.config.pathPref s } := by
  unfold registerService
  rw [if_neg (fun h => h he), if_pos hp]

lemma registerService_path {t : RouteTables} {s : Service}
    (he : s.config.pathExact = []) (hp : s.config.pathPref = [])
    (hb : s.config.path ≠ []) :
    registerService t s =
      { t with routesByPath := insertRoute t.routesByPath s.config.path s } := by
  unfold registerService
  rw [if_neg (fun h => h he), if_neg (fun h => h hp), if_pos hb]

lemma registerService_nothing {t : RouteTables} {s : Service}
    (he : s.config.pathExact = []) (hp : s.config.pathPref = [])
    (hb : s.config.path = []) : registerService t s = t := by
  unfold registerService
  rw [if_neg (fun h => h he), if_neg (fun h => h hp), if_neg (fun h => h hb)]

lemma registerService_inv {t : RouteTables} {s : Service} (h : TablesInv t) :
    TablesInv (registerService t s) := by
  obtain ⟨h1, h2, h3, h4, h5, h6⟩ := h
  by_cases he : s.config.pathExact = []
  · by_cases hp : s.config.pathPref = []
    · by_cases hb : s.config.path = []
      · rw [registerService_nothing he hp hb]
        exact ⟨h1, h2, h3, h4, h5, h6⟩
      · rw [registerService_path he hp hb]
        refine ⟨h1, h2, keysDistinct_insertRoute h3, h4, h5, ?_⟩
        intro kg hkg
        refine ⟨insertRoute_ne (fun kg2 hk2 => (h6 kg2 hk2).1) kg hkg, ?_⟩
        exact insertRoute_forall
          (R := fun key x => x.config.pathExact = [] ∧ x.config.pathPref = [] ∧
            x.config.path = key ∧ key ≠ [])
          (fun kg2 hk2 => (h6 kg2 hk2).2) ⟨he, hp, rfl, hb⟩ kg hkg
    · rw [registerService_pref he hp]
      refine ⟨h1, keysDistinct_insertRoute h2, h3, h4, ?_, h6⟩
      intro kg hkg
      refine ⟨insertRoute_ne (fun kg2 hk2 => (h5 kg2 hk2).1) kg hkg, ?_⟩
      exact insertRoute_forall
        (R := fun key x => x.config.pathExact = [] ∧ x.config.pathPref = key ∧
          key ≠ [])
        (fun kg2 hk2 => (h5 kg2 hk2).2) ⟨he, rfl, hp⟩ kg hkg
  · rw [registerService_exact he]
    refine ⟨keysDistinct_insertRoute h1, h2, h3, ?_, h5, h6⟩
    intro kg hkg
    refine ⟨insertRoute_ne (fun kg2 hk2 => (h4 kg2 hk2).1) kg hkg, ?_⟩
    exact insertRoute_forall
      (R := fun key x => x.config.pathExact = key ∧ key ≠ [])
      (fun kg2 hk2 => (h4 kg2 hk2).2) ⟨rfl, he⟩ kg hkg

lemma foldRegister_inv (parse : GoStr → URLParts) :
    ∀ (cfgs : List ConfigService) (t : RouteTables), TablesInv t →
    TablesInv (cfgs.foldl (fun t sc => registerService t (mkService parse sc)) t) := by
  intro cfgs
  induction cfgs with
  | nil => intro t h; exact h
  | cons sc rest ih =>
    intro t h
    rw [List.foldl_cons]
    exact ih _ (registerService_inv h)

lemma initServices_inv (parse : GoStr → URLParts) (cfgs : List ConfigService) :
    TablesInv (initServices parse cfgs) :=
  foldRegister_inv parse cfgs _
    ⟨List.nodup_nil, List.nodup_nil, List.nodup_nil, by simp, by simp, by simp⟩

lemma mkService_config (parse : GoStr → URLParts) (sc : ConfigService) :
    (mkService parse sc).config = sc := rfl

lemma foldRegister_groupAt_exact (parse : GoStr → URLParts) :
    ∀ (cfgs : List ConfigService) (t : RouteTables) (k : GoStr), k ≠ [] →
    groupAt (cfgs.foldl (fun t sc => registerService t (mkService parse sc))
        t).routesByExact k =
      groupAt t.routesByExact k ++
        (cfgs.filter (fun sc => sc.pathExact == k)).map (mkService parse) := by
  intro cfgs
  induction cfgs with
  | nil =>
    intro t k hk
    simp
  | cons sc rest ih =>
    intro t k hk
    simp only [List.foldl_cons, List.filter_cons]
    by_cases he : sc.pathExact = []
    · have hne : ¬ sc.pathExact = k := fun h => hk (h ▸ he)
      by_cases hp : sc.pathPref = []
      · by_cases hb : sc.path = []
        · rw [registerService_nothing he hp hb]
          simp [ih t k hk, hne]
        · rw [registerService_path he hp hb]
          simp [ih _ k hk, hne]
      · rw [registerService_pref he hp]
        simp [ih _ k hk, hne]
    · rw [registerService_exact he, ih _ k hk]
      by_cases hkeq : k = sc.pathExact
      · simp [mkService_config, groupAt_insertRoute, hkeq]
      · have hne2 : ¬ sc.pathExact = k := fun h => hkeq h.symm
        simp [mkService_config, groupAt_insertRoute, hkeq, hne2]

lemma foldRegister_groupAt_pref (parse : GoStr → URLParts) :
    ∀ (cfgs : List ConfigService) (t : RouteTables) (k : GoStr), k ≠ [] →
    groupAt (cfgs.foldl (fun t sc => registerService t (mkService parse sc))
        t).routesByPref k =
      groupAt t.routesByPref k ++
        (cfgs.filter (fun sc => sc.pathExact == ([] : GoStr) &&
          sc.pathPref == k)).map (mkService parse) := by
  intro cfgs
  induction cfgs with
  | nil =>
    intro t k hk
    simp
  | cons sc rest ih =>
    intro t k hk
    simp only [List.foldl_cons, List.filter_cons]
    by_cases he : sc.pathExact = []
    · by_cases hp : sc.pathPref = []
      · have hne : ¬ sc.pathPref = k := fun h => hk (h ▸ hp)
        by_cases hb : sc.path = []
        · rw [registerService_nothing he hp hb]
          simp [ih t k hk, hne]
        · rw [registerService_path he hp hb]
          simp [ih _ k hk, hne]
      · rw [registerService_pref he hp, ih _ k hk]
        by_cases hkeq : k = sc.pathPref
        · simp [mkService_config, groupAt_insertRoute, hkeq, he]
        · have hne2 : ¬ sc.pathPref = k := fun h => hkeq h.symm
          simp [mkService_config, groupAt_insertRoute, hkeq, hne2, he]
    · rw [registerService_exact he]
      simp [ih _ k hk, he]

lemma foldRegister_groupAt_path (parse : GoStr → URLParts) :
    ∀ (cfgs : List ConfigService) (t : RouteTables) (k : GoStr), k ≠ [] →
    groupAt (cfgs.foldl (fun t sc => registerService t (mkService parse sc))
        t).routesByPath k =
      groupAt t.routesByPath k ++
        (cfgs.filter (fun sc => sc.pathExact == ([] : GoStr) &&
          sc.pathPref == ([] : GoStr) && sc.path == k)).map (mkService parse) := by
  intro cfgs
  induction cfgs with
  | nil =>
    intro t k hk
    simp
  | cons sc rest ih =>
    intro t k hk
    simp only [List.foldl_cons, List.filter_cons]
    by_cases he : sc.pathExact = []
    · by_cases hp : sc.pathPref = []
      · by_cases hb : sc.path = []
        · have hne : ¬ sc.path = k := fun h => hk (h ▸ hb)
          rw [registerService_nothing he hp hb]
          simp [ih t k hk, hne]
        · rw [registerService_path he hp hb, ih _ k hk]
          by_cases hkeq : k = sc.path
          · simp [mkService_config, groupAt_insertRoute, hkeq, he, hp]
          · have hne2 : ¬ sc.path = k := fun h => hkeq h.symm
            simp [mkService_config, groupAt_insertRoute, hkeq, hne2, he, hp]
      · rw [registerService_pref he hp]
        simp [ih _ k hk, hp]
    · rw [registerService_exact he]
      simp [ih _ k hk, he]

lemma initServices_groupAt_exact (parse : GoStr → URLParts)
    (cfgs : List ConfigService) (k : GoStr) (hk : k ≠ []) :
    groupAt (initServices parse cfgs).routesByExact k =
      (cfgs.filter (fun sc => sc.pathExact == k)).map (mkService parse) := by
  have h := foldRegister_groupAt_exact parse cfgs
    { routesByExact := [], routesByPref := [], routesByPath := [] } k hk
  simpa [initServices, groupAt, alookup] using h

lemma initServices_groupAt_path (parse : GoStr → URLParts)
    (cfgs : List ConfigService) (k : GoStr) (hk : k ≠ []) :
    groupAt (initServices parse cfgs).routesByPath k =
      (cfgs.filter (fun sc => sc.pathExact == ([] : GoStr) &&
        sc.pathPref == ([] : GoStr) && sc.path == k)).map (mkService parse) := by
  have h := foldRegister_groupAt_path parse cfgs
    { routesByExact := [], routesByPref := [], routesByPath := [] } k hk
  simpa [initServices, groupAt, alookup] using h

lemma fallbackFold (path : GoStr) :
    ∀ (idx : List (GoStr × List Service)) (acc : List Service),
    idx.foldl (fun m kv => if hasPref path kv.1 = true then m ++ kv.2 else m) acc =
      acc ++ (idx.filter (fun kv => hasPref path kv.1)).flatMap (fun kv => kv.2) := by
  intro idx
  induction idx with
  | nil =>
    intro acc
    simp
  | cons kv rest ih =>
    intro acc
    rw [List.foldl_cons, List.filter_cons]
    by_cases hq : hasPref path kv.1 = true
    · rw [if_pos hq, ih]
      simp [hq]
    · rw [if_neg hq, ih]
      simp [hq]

lemma fallbackScan_eq (idx : List (GoStr × List Service)) (path : GoStr) :
    fallbackScan idx path =
      (idx.filter (fun kv => hasPref path kv.1)).flatMap (fun kv => kv.2) := by
  unfold fallbackScan
  rw [fallbackFold]
  simp

lemma prefFold_const (path : GoStr) :
    ∀ (idx : List (GoStr × List Service)) (b : GoStr) (m : List Service),
    (∀ kv ∈ idx, ¬ (hasPref path kv.1 = true ∧ b.length < kv.1.length)) →
    idx.foldl (fun acc kv =>
      if hasPref path kv.1 = true ∧ acc.1.length < kv.1.length then kv else acc)
      (b, m) = (b, m) := by
  intro idx
  induction idx with
  | nil =>
    intro b m _
    rfl
  | cons kv rest ih =>
    intro b m h
    rw [List.foldl_cons, if_neg (h kv (List.mem_cons_self _ _))]
    exact ih b m (fun kv2 h2 => h kv2 (List.mem_cons_of_mem _ h2))

lemma prefFold_mem (path : GoStr) :
    ∀ (idx : List (GoStr × List Service)) (acc : GoStr × List Service),
    idx.foldl (fun acc kv =>
      if hasPref path kv.1 = true ∧ acc.1.length < kv.1.length then kv else acc)
      acc = acc ∨
    idx.foldl (fun acc kv =>
      if hasPref path kv.1 = true ∧ acc.1.length < kv.1.length then kv else acc)
      acc ∈ idx := by
  intro idx
  induction idx with
  | nil =>
    intro acc
    left
    rfl
  | cons kv rest ih =>
    intro acc
    rw [List.foldl_cons]
    by_cases hc : hasPref path kv.1 = true ∧ acc.1.length < kv.1.length
    · rw [if_pos hc]
      rcases ih kv with h | h
      · right
        rw [h]
        exact List.mem_cons_self _ _
      · right
        exact List.mem_cons_of_mem _ h
    · rw [if_neg hc]
      rcases ih acc with h | h
      · left
        exact h
      · right
        exact List.mem_cons_of_mem _ h

lemma prefFold_bound (path : GoStr) (n : Nat) :
    ∀ (idx : List (GoStr × List Service)) (b : GoStr) (m : List Service),
    (∀ kv ∈ idx, hasPref path kv.1 = true → kv.1.length < n) →
    b.length < n →
    (idx.foldl (fun acc kv =>
      if hasPref path kv.1 = true ∧ acc.1.length < kv.1.length then kv else acc)
      (b, m)).1.length < n := by
  intro idx
  induction idx with
  | nil =>
    intro b m _ hb
    exact hb
  | cons kv rest ih =>
    intro b m h hb
    rw [List.foldl_cons]
    by_cases hc : hasPref path kv.1 = true ∧ b.length < kv.1.length
    · rw [if_pos hc]
      exact ih kv.1 kv.2 (fun kv2 h2 => h kv2 (List.mem_cons_of_mem _ h2))
        (h kv (List.mem_cons_self _ _) hc.1)
    · rw [if_neg hc]
      exact ih b m (fun kv2 h2 => h kv2 (List.mem_cons_of_mem _ h2)) hb

lemma prefScan_mem (idx : List (GoStr × List Service)) (path : GoStr) :
    prefScan idx path = ([], []) ∨ prefScan idx path ∈ idx :=
  prefFold_mem path idx ([], [])

lemma prefScan_nomatch (path : GoStr) (idx : List (GoStr × List Service))
    (h : ∀ kv ∈ idx, hasPref path kv.1 = false) :
    prefScan idx path = ([], []) :=
  prefFold_const path idx [] []
    (fun kv hkv hc => absurd hc.1 (by simp [h kv hkv]))

lemma prefScan_longest (path : GoStr) (idx : List (GoStr × List Service))
    (q : GoStr) (g : List Service)
    (hmem : (q, g) ∈ idx) (hq : hasPref path q = true) (hqne : q ≠ [])
    (hd : keysDistinct idx)
    (hlong : ∀ kv ∈ idx, hasPref path kv.1 = true → kv.1 ≠ q →
      kv.1.length < q.length) :
    prefScan idx path = (q, g) := by
  obtain ⟨xs, ys, rfl⟩ := List.append_of_mem hmem
  have hd2 : (xs.map Prod.fst ++ q :: ys.map Prod.fst).Nodup := by
    have hmap : (xs ++ (q, g) :: ys).map Prod.fst =
        xs.map Prod.fst ++ q :: ys.map Prod.fst := by simp
    rw [← hmap]
    exact hd
  have hqxs : q ∉ xs.map Prod.fst := by
    intro hin
    exact (List.nodup_append.1 hd2).2.2 hin (List.mem_cons_self _ _)
  have hqys : q ∉ ys.map Prod.fst := by
    have h1 := (List.nodup_append.1 hd2).2.1
    exact (List.nodup_cons.1 h1).1
  unfold prefScan
  rw [List.foldl_append, List.foldl_cons]
  have hbound : ((xs.foldl (fun acc kv =>
      if hasPref path kv.1 = true ∧ acc.1.length < kv.1.length then kv else acc)
      ([], []) : GoStr × List Service)).1.length < q.length := by
    refine prefFold_bound path q.length xs [] [] ?_ ?_
    · intro kv hkv hpref
      refine hlong kv (List.mem_append_left _ hkv) hpref ?_
      intro hkq
      exact hqxs (hkq ▸ List.mem_map_of_mem Prod.fst hkv)
    · simpa using List.length_pos.2 hqne
  rw [if_pos ⟨hq, hbound⟩]
  refine prefFold_const path ys q g ?_
  intro kv hkv hc
  have hkq : kv.1 ≠ q := by
    intro hkq
    exact hqys (hkq ▸ List.mem_map_of_mem Prod.fst hkv)
  have := hlong kv (List.mem_append_right _ (List.mem_cons_of_mem _ hkv)) hc.1 hkq
  exact absurd hc.2 (Nat.lt_asymm this)

lemma mem_findMatchingServices {t : RouteTables} {path : GoStr} {x : Service}
    (hx : x ∈ findMatchingServices t path) :
    (∃ kg ∈ t.routesByExact, x ∈ kg.2) ∨ (∃ kg ∈ t.routesByPref, x ∈ kg.2) ∨
    (∃ kg ∈ t.routesByPath, x ∈ kg.2) := by
  cases halo : alookup t.routesByExact path with
  | some g =>
    left
    refine ⟨(path, g), alookup_mem halo, ?_⟩
    simp only [findMatchingServices, halo] at hx
    exact hx
  | none =>
    simp only [findMatchingServices, halo] at hx
    by_cases hm : (prefScan t.routesByPref path).2.length > 0
    · rw [if_pos hm] at hx
      right
      left
      rcases prefScan_mem t.routesByPref path with h | h
      · rw [h] at hm
        exact absurd hm (by simp)
      · exact ⟨prefScan t.routesByPref path, h, hx⟩
    · rw [if_neg hm] at hx
      right
      right
      rw [fallbackScan_eq] at hx
      rcases List.mem_flatMap.1 hx with ⟨kv, hkv, hx2⟩
      exact ⟨kv, (List.mem_filter.1 hkv).1, hx2⟩

/-- C2: for a request path with an entry in the exact index, matching
returns exactly the services registered under that exact pattern, in
registration (declaration) order, and no member of the result is
registered in any prefix or fallback group — for any iteration order
(permutation) of the three Go map indices. -/
theorem findMatchingServices_exactMatch (parse : GoStr → URLParts)
    (cfgs : List ConfigService) (E P F : List (GoStr × List Service))
    (path : GoStr)
    (hE : E.Perm (initServices parse cfgs).routesByExact)
    (hP : P.Perm (initServices parse cfgs).routesByPref)
    (hF : F.Perm (initServices parse cfgs).routesByPath)
    (hpne : path ≠ [])
    (hhit : (cfgs.filter (fun sc => sc.pathExact == path)) ≠ []) :
    findMatchingServices
        { routesByExact := E, routesByPref := P, routesByPath := F } path =
      (cfgs.filter (fun sc => sc.pathExact == path)).map (mkService parse)
    ∧ ∀ s ∈ findMatchingServices
        { routesByExact := E, routesByPref := P, routesByPath := F } path,
      s.config.pathExact = path ∧
      (∀ kg ∈ P, s ∉ kg.2) ∧ (∀ kg ∈ F, s ∉ kg.2) := by
  have hinv := initServices_inv parse cfgs
  have hdE : keysDistinct E :=
    (hE.map Prod.fst).nodup_iff.2 hinv.1
  have hlook : alookup E path =
      alookup (initServices parse cfgs).routesByExact path :=
    alookup_perm hE hdE path
  have hgrp := initServices_groupAt_exact parse cfgs path hpne
  have hgne : groupAt (initServices parse cfgs).routesByExact path ≠ [] := by
    rw [hgrp]
    simpa using hhit
  have halo : alookup E path =
      some ((cfgs.filter (fun sc => sc.pathExact == path)).map (mkService parse)) := by
    rw [hlook]
    cases h2 : alookup (initServices parse cfgs).routesByExact path with
    | none =>
      unfold groupAt at hgne
      rw [h2] at hgne
      exact absurd rfl hgne
    | some g =>
      unfold groupAt at hgrp
      rw [h2] at hgrp
      simp only [Option.getD_some] at hgrp
      rw [hgrp]
  have hfind : findMatchingServices
      { routesByExact := E, routesByPref := P, routesByPath := F } path =
      (cfgs.filter (fun sc => sc.pathExact == path)).map (mkService parse) := by
    simp only [findMatchingServices, halo]
  refine ⟨hfind, ?_⟩
  intro s hs
  rw [hfind] at hs
  rcases List.mem_map.1 hs with ⟨sc, hsc, rfl⟩
  have hsc2 := List.mem_filter.1 hsc
  have hscx : sc.pathExact = path := by
    have := hsc2.2
    simpa using this
  refine ⟨hscx, ?_, ?_⟩
  · intro kg hkg hsin
    have hkg2 := hinv.2.2.2.2.1 kg (hP.subset hkg)
    have := (hkg2.2 _ hsin).1
    rw [mkService_config] at this
    rw [hscx] at this
    exact hpne this
  · intro kg hkg hsin
    have hkg2 := hinv.2.2.2.2.2 kg (hF.subset hkg)
    have := (hkg2.2 _ hsin).1
    rw [mkService_config] at this
    rw [hscx] at this
    exact hpne this

/-- C3: for a path with no exact-index entry, when (q, g) is a registered
prefix group, q is a prefix of the path, and every other matching
registered prefix is strictly shorter than q (the documented
no-equal-length-ties precondition), matching returns exactly g — the
group of the longest matching prefix — and no member of g sits in any
fallback group; for any iteration order of the Go map indices. -/
theorem findMatchingServices_longestWins (parse : GoStr → URLParts)
    (cfgs : List ConfigService) (E P F : List (GoStr × List Service))
    (path q : GoStr) (g : List Service)
    (hE : E.Perm (initServices parse cfgs).routesByExact)
    (hP : P.Perm (initServices parse cfgs).routesByPref)
    (hF : F.Perm (initServices parse cfgs).routesByPath)
    (hnoexact : alookup E path = none)
    (hq : (q, g) ∈ P)
    (hmatch : hasPref path q = true)
    (hties : ∀ kv ∈ P, hasPref path kv.1 = true → kv.1 ≠ q →
      kv.1.length < q.length) :
    findMatchingServices
        { routesByExact := E, routesByPref := P, routesByPath := F } path = g
    ∧ ∀ s ∈ g, ∀ kg ∈ F, s ∉ kg.2 := by
  have hinv := initServices_inv parse cfgs
  have hdP : keysDistinct P :=
    (hP.map Prod.fst).nodup_iff.2 hinv.2.1
  have hqcan := hinv.2.2.2.2.1 (q, g) (hP.subset hq)
  have hgne : g ≠ [] := hqcan.1
  have hqne : q ≠ [] := by
    cases hg : g with
    | nil => exact absurd hg hgne
    | cons x rest =>
      have hx := hqcan.2 x (by rw [hg]; exact List.mem_cons_self _ _)
      exact hx.2.2
  have hscan : prefScan P path = (q, g) :=
    prefScan_longest path P q g hq hmatch hqne hdP hties
  have hfind : findMatchingServices
      { routesByExact := E, routesByPref := P, routesByPath := F } path = g := by
    simp only [findMatchingServices, hnoexact, hscan]
    rw [if_pos (by simpa using List.length_pos.2 hgne)]
  refine ⟨hfind, ?_⟩
  intro s hs kg hkg hsin
  have hspref := (hqcan.2 s hs).2.1
  have hsq : s.config.pathPref ≠ [] := by
    rw [hspref]
    exact hqne
  have hkg2 := hinv.2.2.2.2.2 kg (hF.subset hkg)
  exact hsq ((hkg2.2 s hsin).2.1)

/-- C4: for a path with no exact-index entry and no matching prefix
pattern, matching returns the concatenation of the groups of every
fallback pattern that is a prefix of the path, in iteration order, each
group contiguous; and every registered fallback group is exactly the
services declared under that fallback pattern in declaration order. -/
theorem findMatchingServices_fallbackAccum (parse : GoStr → URLParts)
    (cfgs : List ConfigService) (E P F : List (GoStr × List Service))
    (path : GoStr)
    (hE : E.Perm (initServices parse cfgs).routesByExact)
    (hP : P.Perm (initServices parse cfgs).routesByPref)
    (hF : F.Perm (initServices parse cfgs).routesByPath)
    (hnoexact : alookup E path = none)
    (hnopref : ∀ kv ∈ P, hasPref path kv.1 = false) :
    findMatchingServices
        { routesByExact := E, routesByPref := P, routesByPath := F } path =
      (F.filter (fun kv => hasPref path kv.1)).flatMap (fun kv => kv.2)
    ∧ ∀ kg ∈ F, kg.2 =
        (cfgs.filter (fun sc => sc.pathExact == ([] : GoStr) &&
          sc.pathPref == ([] : GoStr) && sc.path == kg.1)).map (mkService parse) := by
  have hinv := initServices_inv parse cfgs
  have hscan : prefScan P path = ([], []) := prefScan_nomatch path P hnopref
  constructor
  · simp only [findMatchingServices, hnoexact, hscan]
    rw [if_neg (by simp)]
    exact fallbackScan_eq F path
  · intro kg hkg
    have hcan : kg ∈ (initServices parse cfgs).routesByPath := hF.subset hkg
    have hkg2 := hinv.2.2.2.2.2 kg hcan
    have hkne : kg.1 ≠ [] := by
      cases hg : kg.2 with
      | nil => exact absurd hg hkg2.1
      | cons x rest =>
        have hx := hkg2.2 x (by rw [hg]; exact List.mem_cons_self _ _)
        exact hx.2.2.2
    have halo : alookup (initServices parse cfgs).routesByPath kg.1 = some kg.2 := by
      have := mem_alookup hinv.2.2.1 (show (kg.1, kg.2) ∈ _ from hcan)
      exact this
    have hgrp := initServices_groupAt_path parse cfgs kg.1 hkne
    unfold groupAt at hgrp
    rw [halo] at hgrp
    simpa using hgrp

/-- C10: a service whose pathExact, pathPrefix and path fields are all
empty is registered in none of the three route indices, and is never part
of the match result for any request path under any iteration order of
the Go map indices — it is silently unreachable. -/
theorem service_unregistered_unreachable (parse : GoStr → URLParts)
    (cfgs : List ConfigService) (E P F : List (GoStr × List Service))
    (path : GoStr) (s : Service)
    (hE : E.Perm (initServices parse cfgs).routesByExact)
    (hP : P.Perm (initServices parse cfgs).routesByPref)
    (hF : F.Perm (initServices parse cfgs).routesByPath)
    (hE0 : s.config.pathExact = []) (hP0 : s.config.pathPref = [])
    (hB0 : s.config.path = []) :
    (∀ kg ∈ (initServices parse cfgs).routesByExact, s ∉ kg.2) ∧
    (∀ kg ∈ (initServices parse cfgs).routesByPref, s ∉ kg.2) ∧
    (∀ kg ∈ (initServices parse cfgs).routesByPath, s ∉ kg.2) ∧
    s ∉ findMatchingServices
      { routesByExact := E, routesByPref := P, routesByPath := F } path := by
  have hinv := initServices_inv parse cfgs
  have hex : ∀ kg ∈ (initServices parse cfgs).routesByExact, s ∉ kg.2 := by
    intro kg hkg hsin
    have h2 := hinv.2.2.2.1 kg hkg
    have h3 := h2.2 s hsin
    rw [hE0] at h3
    exact h3.2 h3.1.symm
  have hpr : ∀ kg ∈ (initServices parse cfgs).routesByPref, s ∉ kg.2 := by
    intro kg hkg hsin
    have h2 := hinv.2.2.2.2.1 kg hkg
    have h3 := h2.2 s hsin
    rw [hP0] at h3
    exact h3.2.2 h3.2.1.symm
  have hpa : ∀ kg ∈ (initServices parse cfgs).routesByPath, s ∉ kg.2 := by
    intro kg hkg hsin
    have h2 := hinv.2.2.2.2.2 kg hkg
    have h3 := h2.2 s hsin
    rw [hB0] at h3
    exact h3.2.2.2 h3.2.2.1.symm
  refine ⟨hex, hpr, hpa, ?_⟩
  intro hmem
  rcases mem_findMatchingServices hmem with ⟨kg, hkg, hsin⟩ | ⟨kg, hkg, hsin⟩ |
    ⟨kg, hkg, hsin⟩
  · exact hex kg (hE.subset hkg) hsin
  · exact hpr kg (hP.subset hkg) hsin
  · exact hpa kg (hF.subset hkg) hsin

/-- A trivial URL parser used by concrete witnesses. -/
def parseW : GoStr → URLParts := fun u => { scheme := [], host := [], repr := u }

/-- A config entry with every field empty, used by concrete witnesses. -/
def cfgBase : ConfigService :=
  { name := [], url := [], path := [], pathPref := [], pathExact := [],
    primary := false, headers := [], weight := 0 }

/-- Witness config: an exact registration on a pattern. -/
def cfgExactE : ConfigService := { cfgBase with pathExact := goStr (r"/e") }

/-- Witness config: an overlapping prefix registration on the same pattern. -/
def cfgPrefE : ConfigService := { cfgBase with pathPref := goStr (r"/e") }

/-- Witness configuration with overlapping exact and prefix patterns. -/
def cfgsW2 : List ConfigService := [cfgExactE, cfgPrefE]

/-- Witness for C2: with both an exact and a prefix registration on the
pattern, a request for that exact path returns only the exact group. -/
theorem findMatchingServices_exactMatch_witness :
    findMatchingServices (initServices parseW cfgsW2) (goStr (r"/e")) =
      (cfgsW2.filter (fun sc => sc.pathExact == goStr (r"/e"))).map
        (mkService parseW) :=
  (findMatchingServices_exactMatch parseW cfgsW2 _ _ _ (goStr (r"/e"))
    (List.Perm.refl _) (List.Perm.refl _) (List.Perm.refl _) (by decide)
    (by decide)).1

/-- Witness config: a short prefix registration. -/
def cfgPrefApi : ConfigService := { cfgBase with pathPref := goStr (r"/api") }

/-- Witness config: a longer overlapping prefix registration. -/
def cfgPrefApiV1 : ConfigService :=
  { cfgBase with pathPref := goStr (r"/api/v1") }

/-- Witness configuration with two overlapping prefixes. -/
def cfgsW3 : List ConfigService := [cfgPrefApi, cfgPrefApiV1]

/-- Witness for C3: with two overlapping prefixes, the longer one wins. -/
theorem findMatchingServices_longestWins_witness :
    findMatchingServices (initServices parseW cfgsW3) (goStr (r"/api/v1/x")) =
      [mkService parseW cfgPrefApiV1] :=
  (findMatchingServices_longestWins parseW cfgsW3 _ _ _ (goStr (r"/api/v1/x"))
    (goStr (r"/api/v1")) [mkService parseW cfgPrefApiV1]
    (List.Perm.refl _) (List.Perm.refl _) (List.Perm.refl _) (by decide)
    (by decide) (by decide) (by decide)).1

/-- Witness config: a fallback registration on a short base path. -/
def cfgPathA : ConfigService := { cfgBase with path := goStr (r"/a") }

/-- Witness config: a fallback registration on a longer base path. -/
def cfgPathAB : ConfigService := { cfgBase with path := goStr (r"/a/b") }

/-- Witness configuration with two overlapping fallback patterns. -/
def cfgsW4 : List ConfigService := [cfgPathA, cfgPathAB]

/-- Witness for C4: with two qualifying fallback patterns, the groups of
both are accumulated. -/
theorem findMatchingServices_fallbackAccum_witness :
    findMatchingServices (initServices parseW cfgsW4) (goStr (r"/a/b/c")) =
      (((initServices parseW cfgsW4).routesByPath.filter
        (fun kv => hasPref (goStr (r"/a/b/c")) kv.1)).flatMap
          (fun kv => kv.2)) :=
  (findMatchingServices_fallbackAccum parseW cfgsW4 _ _ _ (goStr (r"/a/b/c"))
    (List.Perm.refl _) (List.Perm.refl _) (List.Perm.refl _) (by decide)
    (by decide)).1

/-- Witness configuration containing a service with all path fields empty. -/
def cfgsW10 : List ConfigService := [cfgExactE, cfgBase]

/-- Witness for C10: the all-empty-pattern service is never matched. -/
theorem service_unregistered_unreachable_witness :
    mkService parseW cfgBase ∉
      findMatchingServices (initServices parseW cfgsW10) (goStr (r"/e")) :=
  (service_unregistered_unreachable parseW cfgsW10 _ _ _ (goStr (r"/e"))
    (mkService parseW cfgBase) (List.Perm.refl _) (List.Perm.refl _)
    (List.Perm.refl _) rfl rfl rfl).2.2.2

lemma goStr_slash : goStr (r"/") = ['/'] := rfl

lemma hasPref_slash_append (p : GoStr) :
    hasPref (goStr (r"/") ++ p) (goStr (r"/")) = true := by
  rw [goStr_slash]
  simp [hasPref]

lemma stripPath_slash (svc : Service) (path : GoStr)
    (hp : hasPref path (goStr (r"/")) = true) :
    hasPref (stripPath svc path) (goStr (r"/")) = true := by
  unfold stripPath
  by_cases hc : svc.config.pathPref ≠ [] ∧ hasPref path svc.config.pathPref = true
  · rw [if_pos hc]
    by_cases hs : hasPref (trimPref path svc.config.pathPref) (goStr (r"/")) = true
    · rw [if_neg (fun hh => hh hs)]
      exact hs
    · rw [if_pos hs]
      exact hasPref_slash_append _
  · rw [if_neg hc]
    exact hp

lemma createTargetURL_eq (svc : Service) (path rawQuery : GoStr)
    (hp1 : hasPref (stripPath svc path) (goStr (r"/")) = true) :
    createTargetURL svc path rawQuery =
      svc.url.scheme ++ goStr (r"://") ++ svc.url.host ++ stripPath svc path ++
        (if rawQuery ≠ [] then goStr (r"?") ++ rawQuery else []) := by
  simp only [createTargetURL]
  rw [if_pos hp1]
  by_cases hq : rawQuery ≠ []
  · rw [if_pos hq, if_pos hq]
    simp [List.append_assoc]
  · rw [if_neg hq, if_neg hq]
    simp

lemma stripPath_eq (svc : Service) (path : GoStr) :
    stripPath svc path =
      if svc.config.pathPref ≠ [] ∧ hasPref path svc.config.pathPref = true then
        (if hasPref (path.drop svc.config.pathPref.length) (goStr (r"/")) = true
         then path.drop svc.config.pathPref.length
         else goStr (r"/") ++ path.drop svc.config.pathPref.length)
      else path := by
  unfold stripPath
  by_cases hc : svc.config.pathPref ≠ [] ∧ hasPref path svc.config.pathPref = true
  · rw [if_pos hc, if_pos hc]
    have hts : trimPref path svc.config.pathPref =
        path.drop svc.config.pathPref.length := by
      unfold trimPref
      rw [if_pos hc.2]
    rw [hts]
    by_cases hs : hasPref (path.drop svc.config.pathPref.length) (goStr (r"/")) = true
    · rw [if_neg (fun hh => hh hs), if_pos hs]
    · rw [if_pos hs, if_neg hs]
  · rw [if_neg hc, if_neg hc]

/-- C5: for any inbound path beginning with a slash, the outbound URL is
the service's scheme, "://", host, then the path — stripped of the
service's non-empty path prefix when the path starts with it, with a
leading slash re-added when stripping removed it, else unchanged — and
the raw query appended verbatim after a question mark when non-empty.
Any path segment of the configured base URL (svc.url.repr) is discarded. -/
theorem createTargetURL_spec (svc : Service) (path rawQuery : GoStr)
    (hp : hasPref path (goStr (r"/")) = true) :
    createTargetURL svc path rawQuery =
      svc.url.scheme ++ goStr (r"://") ++ svc.url.host ++
        (if svc.config.pathPref ≠ [] ∧ hasPref path svc.config.pathPref = true
         then
           (if hasPref (path.drop svc.config.pathPref.length) (goStr (r"/")) = true
            then path.drop svc.config.pathPref.length
            else goStr (r"/") ++ path.drop svc.config.pathPref.length)
         else path) ++
        (if rawQuery ≠ [] then goStr (r"?") ++ rawQuery else []) := by
  rw [createTargetURL_eq svc path rawQuery (stripPath_slash svc path hp),
    stripPath_eq]

/-- A concrete service with a path prefix, for the C5 witness. -/
def svcW5 : Service :=
  { name := [],
    url := { scheme := goStr (r"http"), host := goStr (r"h:1"),
             repr := goStr (r"http://h:1/base") },
    path := [], primary := false,
    config := { cfgBase with pathPref := goStr (r"/api") } }

/-- Witness for C5: prefix stripped, base URL path discarded, query kept. -/
theorem createTargetURL_spec_witness :
    createTargetURL svcW5 (goStr (r"/api/x")) (goStr (r"q=1")) =
      goStr (r"http") ++ goStr (r"://") ++ goStr (r"h:1") ++
        (if svcW5.config.pathPref ≠ [] ∧
            hasPref (goStr (r"/api/x")) svcW5.config.pathPref = true
         then
           (if hasPref ((goStr (r"/api/x")).drop svcW5.config.pathPref.length)
                (goStr (r"/")) = true
            then (goStr (r"/api/x")).drop svcW5.config.pathPref.length
            else goStr (r"/") ++
              (goStr (r"/api/x")).drop svcW5.config.pathPref.length)
         else goStr (r"/api/x")) ++
        (if goStr (r"q=1") ≠ [] then goStr (r"?") ++ goStr (r"q=1") else []) :=
  createTargetURL_spec svcW5 (goStr (r"/api/x")) (goStr (r"q=1")) (by decide)

lemma processResults_all_err {rs : List serviceResult}
    (h : ∀ r ∈ rs, r.err = true) : processResults rs = none := by
  rw [processResults_eq]
  have h1 : rs.find? isPrimarySuccess = none := by
    rw [List.find?_eq_none]
    intro x hx
    simp [isPrimarySuccess, h x hx]
  have h2 : rs.find? isSuccess = none := by
    rw [List.find?_eq_none]
    intro x hx
    simp [isSuccess, h x hx]
  rw [h1, h2]

/-- C6: when at least one service matched, the body was read, and every
dispatched outcome carries an error (so the selector yields no result),
ServeHTTP responds 502 with the literal body "All services failed",
having dispatched one outbound request per matched service. -/
theorem serveHTTP_allFailed (t : RouteTables) (path : GoStr)
    (outcomes : List serviceResult)
    (hmatch : findMatchingServices t path ≠ [])
    (hfail : ∀ o ∈ outcomes, o.err = true) :
    serveHTTP t path true outcomes =
      (httpError (goStr (r"All services failed")) 502,
       (findMatchingServices t path).length) := by
  have hnone := processResults_all_err hfail
  have hlen : ¬ (findMatchingServices t path).length = 0 := by
    simpa [List.length_eq_zero] using hmatch
  simp [serveHTTP, hnone, hlen]

/-- Witness for C6 at a concrete table and a single failed outcome. -/
theorem serveHTTP_allFailed_witness :
    serveHTTP (initServices parseW cfgsW2) (goStr (r"/e")) true [resFail] =
      (httpError (goStr (r"All services failed")) 502,
       (findMatchingServices (initServices parseW cfgsW2)
         (goStr (r"/e"))).length) :=
  serveHTTP_allFailed (initServices parseW cfgsW2) (goStr (r"/e")) [resFail]
    (by decide) (by decide)

/-- C7: when the path matches no registered pattern, ServeHTTP responds
404 with the literal body "No service found for request" and dispatches
zero outbound requests, for any body-read result and any outcomes. -/
theorem serveHTTP_noRoute (t : RouteTables) (path : GoStr) (bodyOk : Bool)
    (outcomes : List serviceResult)
    (hmatch : findMatchingServices t path = []) :
    serveHTTP t path bodyOk outcomes =
      (httpError (goStr (r"No service found for request")) 404, 0) := by
  simp [serveHTTP, hmatch]

/-- Witness for C7 at a concrete table and an unmatched path. -/
theorem serveHTTP_noRoute_witness :
    serveHTTP (initServices parseW cfgsW2) (goStr (r"/nope")) true [] =
      (httpError (goStr (r"No service found for request")) 404, 0) :=
  serveHTTP_noRoute (initServices parseW cfgsW2) (goStr (r"/nope")) true []
    (by decide)

lemma alookup_headerAdd (h : Headers) (k k' v : GoStr) :
    alookup (headerAdd h k v) k' =
      if k' = k then some ((alookup h k).getD [] ++ [v]) else alookup h k' := by
  induction h with
  | nil =>
    by_cases hk : k' = k
    · subst hk
      simp [headerAdd, alookup]
    · have h2 : ¬ k = k' := fun hh => hk hh.symm
      simp [headerAdd, alookup, hk, h2]
  | cons kv rest ih =>
    obtain ⟨k0, vs⟩ := kv
    by_cases hk0 : k0 = k
    · subst hk0
      by_cases hk : k' = k0
      · subst hk
        simp [headerAdd, alookup]
      · have h2 : ¬ k0 = k' := fun hh => hk hh.symm
        simp [headerAdd, alookup, hk, h2]
    · by_cases hk : k' = k0
      · have h5 : k0 = k' := hk.symm
        have h6 : ¬ k' = k := fun hh => hk0 (hk.symm.trans hh)
        simp [headerAdd, hk0, alookup, h5, h6]
      · have h4 : ¬ k0 = k' := fun hh => hk hh.symm
        by_cases hkk : k' = k
        · subst hkk
          simp [headerAdd, hk0, alookup, h4, ih]
        · simp [headerAdd, hk0, alookup, h4, hkk, ih]

lemma alookup_headerSet (h : Headers) (k k' v : GoStr) :
    alookup (headerSet h k v) k' =
      if k' = k then some [v] else alookup h k' := by
  induction h with
  | nil =>
    by_cases hk : k' = k
    · subst hk
      simp [headerSet, alookup]
    · have h2 : ¬ k = k' := fun hh => hk hh.symm
      simp [headerSet, alookup, hk, h2]
  | cons kv rest ih =>
    obtain ⟨k0, vs⟩ := kv
    by_cases hk0 : k0 = k
    · subst hk0
      by_cases hk : k' = k0
      · subst hk
        simp [headerSet, alookup]
      · have h2 : ¬ k0 = k' := fun hh => hk hh.symm
        simp [headerSet, alookup, hk, h2]
    · by_cases hk : k' = k0
      · have h5 : k0 = k' := hk.symm
        have h6 : ¬ k' = k := fun hh => hk0 (hk.symm.trans hh)
        simp [headerSet, hk0, alookup, h5, h6]
      · have h4 : ¬ k0 = k' := fun hh => hk hh.symm
        by_cases hkk : k' = k
        · subst hkk
          simp [headerSet, hk0, alookup, h4, ih]
        · simp [headerSet, hk0, alookup, h4, hkk, ih]

lemma alookup_addAll (k0 : GoStr) :
    ∀ (vs : List GoStr) (acc : Headers) (k : GoStr),
    alookup (vs.foldl (fun a v => headerAdd a k0 v) acc) k =
      if k = k0 ∧ vs ≠ [] then some ((alookup acc k0).getD [] ++ vs)
      else alookup acc k := by
  intro vs
  induction vs with
  | nil =>
    intro acc k
    simp
  | cons v vs2 ih =>
    intro acc k
    rw [List.foldl_cons, ih]
    by_cases hk : k = k0
    · subst hk
      by_cases hvs : vs2 = []
      · subst hvs
        simp [alookup_headerAdd]
      · simp [hvs, alookup_headerAdd]
    · simp [hk, alookup_headerAdd]

lemma alookup_copyAll :
    ∀ (orig : Headers) (acc : Headers) (k : GoStr), keysDistinct orig →
    (∀ kv ∈ orig, kv.2 ≠ []) →
    alookup (orig.foldl
      (fun acc kv => kv.2.foldl (fun a v => headerAdd a kv.1 v) acc) acc) k =
      match alookup orig k with
      | none => alookup acc k
      | some vs => some ((alookup acc k).getD [] ++ vs) := by
  intro orig
  induction orig with
  | nil =>
    intro acc k _ _
    simp [alookup]
  | cons kv rest ih =>
    obtain ⟨k0, vs0⟩ := kv
    intro acc k hd hne
    rw [List.foldl_cons]
    have hd2 : keysDistinct rest := (List.nodup_cons.1 hd).2
    have hne2 : ∀ kv ∈ rest, kv.2 ≠ [] :=
      fun kv h2 => hne kv (List.mem_cons_of_mem _ h2)
    rw [ih _ k hd2 hne2]
    have hvs0 : vs0 ≠ [] := hne (k0, vs0) (List.mem_cons_self _ _)
    by_cases hk : k = k0
    · subst hk
      have hrk : alookup rest k = none := by
        cases h2 : alookup rest k with
        | none => rfl
        | some g =>
          exact absurd (List.mem_map_of_mem Prod.fst (alookup_mem h2))
            (List.nodup_cons.1 hd).1
      simp [hrk, alookup_addAll, hvs0, alookup]
    · have hk2 : ¬ k0 = k := fun hh => hk hh.symm
      simp [alookup, hk2, alookup_addAll, hk]

lemma alookup_setAll :
    ∀ (svcH : List (GoStr × GoStr)) (acc : Headers) (k : GoStr),
    keysDistinct svcH →
    alookup (svcH.foldl (fun acc kv => headerSet acc kv.1 kv.2) acc) k =
      match alookup svcH k with
      | some v => some [v]
      | none => alookup acc k := by
  intro svcH
  induction svcH with
  | nil =>
    intro acc k _
    simp [alookup]
  | cons kv rest ih =>
    obtain ⟨k0, v0⟩ := kv
    intro acc k hd
    rw [List.foldl_cons]
    have hd2 : keysDistinct rest := (List.nodup_cons.1 hd).2
    rw [ih _ k hd2]
    by_cases hk : k = k0
    · subst hk
      have hrk : alookup rest k = none := by
        cases h2 : alookup rest k with
        | none => rfl
        | some g =>
          exact absurd (List.mem_map_of_mem Prod.fst (alookup_mem h2))
            (List.nodup_cons.1 hd).1
      simp [hrk, alookup_headerSet, alookup]
    · have hk2 : ¬ k0 = k := fun hh => hk hh.symm
      simp [alookup, hk2, alookup_headerSet, hk]

/-- C8: the outbound header set equals the inbound headers copied
verbatim with the service's overlay headers applied last: an overlay key
maps to exactly its overlay value — also when the inbound request carries
that header name — and every non-overlay name keeps its inbound values.
Inbound headers have distinct names and non-empty value lists, and the
overlay map has distinct keys, as Go maps guarantee. -/
theorem copyAndAugmentHeaders_overlay (orig : Headers)
    (svcH : List (GoStr × GoStr))
    (hdo : keysDistinct orig) (hno : ∀ kv ∈ orig, kv.2 ≠ [])
    (hds : keysDistinct svcH) (k : GoStr) :
    (∀ v, (k, v) ∈ svcH →
      alookup (copyAndAugmentHeaders orig svcH) k = some [v])
  ∧ ((∀ v, (k, v) ∉ svcH) →
      alookup (copyAndAugmentHeaders orig svcH) k = alookup orig k) := by
  constructor
  · intro v hv
    show alookup (svcH.foldl (fun acc kv => headerSet acc kv.1 kv.2) _) k =
      some [v]
    rw [alookup_setAll _ _ _ hds, mem_alookup hds hv]
  · intro hnv
    show alookup (svcH.foldl (fun acc kv => headerSet acc kv.1 kv.2) _) k =
      alookup orig k
    rw [alookup_setAll _ _ _ hds]
    have hsn : alookup svcH k = none := by
      cases h2 : alookup svcH k with
      | none => rfl
      | some v => exact absurd (alookup_mem h2) (hnv v)
    rw [hsn]
    rw [alookup_copyAll orig [] k hdo hno]
    cases h2 : alookup orig k <;> simp [h2, alookup]

/-- Witness for C8: the overlay value replaces an inbound value of the
same header name. -/
theorem copyAndAugmentHeaders_overlay_witness :
    alookup (copyAndAugmentHeaders [(goStr (r"A"), [goStr (r"x")])]
      [(goStr (r"A"), goStr (r"y"))]) (goStr (r"A")) = some [goStr (r"y")] :=
  (copyAndAugmentHeaders_overlay [(goStr (r"A"), [goStr (r"x")])]
    [(goStr (r"A"), goStr (r"y"))] (by decide) (by decide) (by decide)
    (goStr (r"A"))).1 (goStr (r"y")) (by decide)

/-- C9: after the post-parse step of Load, the port is 8080 exactly when
the document left it zero (otherwise unchanged), the timeout is 30
exactly when left zero (otherwise unchanged); when no service is marked
primary and the list is non-empty the first declared service is returned
with primary set and every other per-service field as parsed, the rest
of the list untouched; and when some service is already primary the
service list is returned exactly as parsed. -/
theorem applyLoadDefaults_spec (c : Config) :
    ((c.port = 0 → (applyLoadDefaults c).port = 8080)
  ∧ (c.port ≠ 0 → (applyLoadDefaults c).port = c.port))
  ∧ ((c.timeout = 0 → (applyLoadDefaults c).timeout = 30)
  ∧ (c.timeout ≠ 0 → (applyLoadDefaults c).timeout = c.timeout))
  ∧ (∀ hd tl, c.services = hd :: tl → (∀ s ∈ c.services, s.primary = false) →
      (applyLoadDefaults c).services = { hd with primary := true } :: tl)
  ∧ ((∃ s ∈ c.services, s.primary = true) →
      (applyLoadDefaults c).services = c.services) := by
  refine ⟨⟨?_, ?_⟩, ⟨?_, ?_⟩, ?_, ?_⟩
  · intro h
    simp [applyLoadDefaults, h, apply_ite Config.port]
  · intro h
    simp [applyLoadDefaults, h, apply_ite Config.port]
  · intro h
    simp [applyLoadDefaults, h, apply_ite Config.timeout, apply_ite Config.port]
  · intro h
    simp [applyLoadDefaults, h, apply_ite Config.timeout, apply_ite Config.port]
  · intro hd tl hserv hnone
    have hany : c.services.any (fun s => s.primary) = false := by
      rw [List.any_eq_false]
      intro x hx
      simp [hnone x hx]
    have hne : c.services ≠ [] := by
      rw [hserv]
      simp
    have hsv : (applyLoadDefaults c).services =
        if (¬ c.services.any (fun s => s.primary)) ∧ c.services ≠ [] then
          markFirstPrimary c.services
        else c.services := by
      simp [applyLoadDefaults, apply_ite Config.services]
    rw [hsv, if_pos ⟨by simp [hany], hne⟩, hserv]
    rfl
  · intro h
    obtain ⟨sv, hsvm, hp⟩ := h
    have hany : c.services.any (fun s => s.primary) = true :=
      List.any_eq_true.2 ⟨sv, hsvm, by simp [hp]⟩
    have hsv : (applyLoadDefaults c).services =
        if (¬ c.services.any (fun s => s.primary)) ∧ c.services ≠ [] then
          markFirstPrimary c.services
        else c.services := by
      simp [applyLoadDefaults, apply_ite Config.services]
    rw [hsv, if_neg (fun hc => hc.1 hany)]

/-- A witness configuration with unset port and timeout and no primary
service. -/
def cfgW9 : Config :=
  { port := 0, services := [cfgPrefApi, cfgPathA], timeout := 0,
    metrics := { enabled := false, endpoint := [], enablePrometheus := false } }

/-- Witness for C9: the defaults are applied and the first service is
marked primary with everything else as parsed. -/
theorem applyLoadDefaults_spec_witness :
    (applyLoadDefaults cfgW9).port = 8080 ∧
    (applyLoadDefaults cfgW9).services =
      { cfgPrefApi with primary := true } :: [cfgPathA] :=
  ⟨(applyLoadDefaults_spec cfgW9).1.1 rfl,
   (applyLoadDefaults_spec cfgW9).2.2.1 cfgPrefApi [cfgPathA] rfl (by decide)⟩

end Conductor
